import Mathlib

/-!
Verification development for the Distri_OSS_Tutorial distributed object
store.  Each Go function referenced by a claim is shallowly embedded as a
Lean definition (time instants and durations become `Nat` nanoseconds,
Go maps become association lists keyed by service ID, float scores become
`ℚ`), and the claims are settled as theorems about those definitions.
-/

namespace DOSS

/-! ## Service registry
Embeds `src/v2-optimized/internal/discovery/registry.go`. -/

/-- Health constants `HealthStatus` from registry.go. -/
inductive HealthStatus where
  | healthy
  | unhealthy
  | unknown
deriving DecidableEq, Repr

/-- Record `ServiceInfo` from registry.go.  `time.Time` fields are modelled as
`Nat` instants; the `map[string]string` metadata as an association list. -/
structure ServiceInfo where
  id : String
  name : String
  address : String
  port : Nat
  tags : List String
  metadata : List (String × String)
  health : HealthStatus
  registerTime : Nat
  lastSeen : Nat
deriving DecidableEq, Repr

/-- The registry's `services map[string]*ServiceInfo`, as an association
list keyed by service ID. -/
abbrev Registry := List (String × ServiceInfo)

/-- Go map assignment `r.services[service.ID] = service`: replace the entry
with this key if present, otherwise add it. -/
def setService (reg : Registry) (s : ServiceInfo) : Registry :=
  if reg.any (fun p => p.1 = s.id) then
    reg.map (fun p => if p.1 = s.id then (s.id, s) else p)
  else
    reg ++ [(s.id, s)]

/-- Function `Register` (registry.go): rejects an empty ID, otherwise stamps
`RegisterTime` and `LastSeen` with `time.Now()` (both calls yield the same
modelled instant `now`), forces `Health = Healthy` and stores the record. -/
def register (reg : Registry) (now : Nat) (s : ServiceInfo) : Registry :=
  if s.id = "" then reg
  else setService reg { s with registerTime := now, lastSeen := now, health := .healthy }

/-- Function `Deregister` (registry.go): `delete(r.services, serviceID)`; a missing
ID only yields an error, the map is unchanged. -/
def deregister (reg : Registry) (serviceID : String) : Registry :=
  reg.filter (fun p => p.1 ≠ serviceID)

/-- Function `Discover` (registry.go): all stored values whose `Name` matches and
whose `Health` is `Healthy`. -/
def discover (reg : Registry) (serviceName : String) : List ServiceInfo :=
  (reg.map Prod.snd).filter (fun s => s.name = serviceName ∧ s.health = .healthy)

/-- Function `UpdateHealth` (registry.go): if the ID is present, overwrite `Health`
with `status` and refresh `LastSeen` to `time.Now()`; otherwise error,
leaving the map unchanged. -/
def updateHealth (reg : Registry) (now : Nat) (serviceID : String) (status : HealthStatus) :
    Registry :=
  reg.map (fun p => if p.1 = serviceID then (p.1, { p.2 with health := status, lastSeen := now }) else p)

/-- One entry of the `checkExpiredServices` loop (registry.go): an instance
silent for more than `timeout` is marked Unhealthy, and if silent for more
than `timeout*2` it is deleted outright (`none`).  `now - lastSeen` uses
truncated `Nat` subtraction, which agrees with Go's signed duration
comparison against a nonnegative timeout. -/
def sweepEntry (now timeout : Nat) (p : String × ServiceInfo) : Option (String × ServiceInfo) :=
  if now - p.2.lastSeen > timeout then
    if now - p.2.lastSeen > timeout * 2 then none
    else some (p.1, { p.2 with health := .unhealthy })
  else some p

/-- Function `checkExpiredServices` (registry.go): one pass of the health sweep over
every stored instance. -/
def checkExpiredServices (reg : Registry) (now timeout : Nat) : Registry :=
  reg.filterMap (sweepEntry now timeout)

/-- The registry mutations, for stating invariants over arbitrary
operation sequences. -/
inductive RegistryOp where
  | register (s : ServiceInfo)
  | updateHealth (serviceID : String) (status : HealthStatus)
  | deregister (serviceID : String)
  | sweep (timeout : Nat)

/-- Dispatch one registry operation at instant `now`. -/
def applyOp (reg : Registry) (now : Nat) : RegistryOp → Registry
  | .register s => register reg now s
  | .updateHealth id st => updateHealth reg now id st
  | .deregister id => deregister reg id
  | .sweep timeout => checkExpiredServices reg now timeout

/-- Run a timestamped sequence of registry operations. -/
def applyOps (reg : Registry) : List (Nat × RegistryOp) → Registry
  | [] => reg
  | (t, op) :: rest => applyOps (applyOp reg t op) rest

/-- Registry invariant at instant `t`: every stored record was last seen no
earlier than it was registered, and not in the future. -/
def RegInv (reg : Registry) (t : Nat) : Prop :=
  ∀ p ∈ reg, p.2.registerTime ≤ p.2.lastSeen ∧ p.2.lastSeen ≤ t

/-- A sample instance used to instantiate hypotheses of proved theorems. -/
def sampleService : ServiceInfo :=
  { id := "a", name := "svc", address := "127.0.0.1", port := 8080,
    tags := [], metadata := [], health := .unknown, registerTime := 0, lastSeen := 0 }

/-- In an association list with nodup keys, a key determines its value. -/
lemma keys_nodup_value_eq {α β : Type} {l : List (α × β)} {k : α} {a b : β}
    (hnd : (l.map Prod.fst).Nodup) (ha : (k, a) ∈ l) (hb : (k, b) ∈ l) : a = b := by
  induction l with
  | nil => cases ha
  | cons p rest ih =>
      simp only [List.map_cons, List.nodup_cons] at hnd
      rcases List.mem_cons.mp ha with ha1 | ha1 <;>
        rcases List.mem_cons.mp hb with hb1 | hb1
      · exact (Prod.ext_iff.mp (ha1.trans hb1.symm)).2
      · exact absurd (List.mem_map_of_mem Prod.fst hb1) (by simpa [← ha1] using hnd.1)
      · exact absurd (List.mem_map_of_mem Prod.fst ha1) (by simpa [← hb1] using hnd.1)
      · exact ih hnd.2 ha1 hb1

/-- C3: `Discover(name)` returns exactly the stored instances whose name
matches and whose health is Healthy; in particular it never returns an
instance whose health is not Healthy. -/
theorem discover_exactly_healthy_matches (reg : Registry) (serviceName : String)
    (s : ServiceInfo) :
    s ∈ discover reg serviceName ↔
      s ∈ reg.map Prod.snd ∧ s.name = serviceName ∧ s.health = .healthy := by
  simp [discover, List.mem_filter, and_assoc]

/-- Every record produced by `sweepEntry` keeps the key and the two
timestamps of its source record. -/
lemma sweepEntry_some {now timeout : Nat} {p q : String × ServiceInfo}
    (h : sweepEntry now timeout p = some q) :
    q.1 = p.1 ∧ q.2.registerTime = p.2.registerTime ∧ q.2.lastSeen = p.2.lastSeen := by
  unfold sweepEntry at h
  split at h
  · split at h
    · cases h
    · cases h; exact ⟨rfl, rfl, rfl⟩
  · cases h; exact ⟨rfl, rfl, rfl⟩

/-- C4: one pass of the health sweep, given current time `now`: an instance
silent for at most `timeout` is untouched; one silent for more than
`timeout` but at most `2×timeout` is kept with health forced to Unhealthy;
one silent for more than `2×timeout` is removed from the registry. -/
theorem sweep_marks_and_deletes (reg : Registry) (now timeout : Nat) (id : String)
    (s : ServiceInfo) (hnd : (reg.map Prod.fst).Nodup) (hmem : (id, s) ∈ reg) :
    (now - s.lastSeen ≤ timeout → (id, s) ∈ checkExpiredServices reg now timeout) ∧
    (timeout < now - s.lastSeen → now - s.lastSeen ≤ timeout * 2 →
      (id, { s with health := .unhealthy }) ∈ checkExpiredServices reg now timeout) ∧
    (timeout * 2 < now - s.lastSeen →
      ∀ s', (id, s') ∉ checkExpiredServices reg now timeout) := by
  refine ⟨?_, ?_, ?_⟩
  · intro hle
    exact List.mem_filterMap.mpr ⟨(id, s), hmem, by simp [sweepEntry, Nat.not_lt.mpr hle]⟩
  · intro hgt hle
    exact List.mem_filterMap.mpr ⟨(id, s), hmem, by simp [sweepEntry, hgt, Nat.not_lt.mpr hle]⟩
  · intro hgt s' hmem'
    rcases List.mem_filterMap.mp hmem' with ⟨p, hp, hpe⟩
    have hkey : p.1 = id := ((sweepEntry_some hpe).1).symm.trans rfl
    have hval : p.2 = s := by
      have : (id, p.2) ∈ reg := by
        have := hp; rwa [show p = (id, p.2) from Prod.ext hkey rfl] at this
      exact keys_nodup_value_eq hnd this hmem
    have h2 : timeout < now - p.2.lastSeen := by
      rw [hval]; omega
    have h3 : timeout * 2 < now - p.2.lastSeen := by rw [hval]; exact hgt
    simp [sweepEntry, h2, h3] at hpe

/-- The invariant `registerTime ≤ lastSeen ≤ now` is preserved by every
single registry operation executed at an instant `now` not before the
previous one. -/
lemma regInv_applyOp {reg : Registry} {t now : Nat} (op : RegistryOp)
    (hinv : RegInv reg t) (hle : t ≤ now) : RegInv (applyOp reg now op) now := by
  have hweak : ∀ p ∈ reg, p.2.registerTime ≤ p.2.lastSeen ∧ p.2.lastSeen ≤ now :=
    fun p hp => ⟨(hinv p hp).1, le_trans (hinv p hp).2 hle⟩
  cases op with
  | register s =>
      simp only [applyOp, register]
      split
      · exact hweak
      · unfold setService
        split
        · intro p hp
          rcases List.mem_map.mp hp with ⟨q, hq, hqe⟩
          by_cases hk : q.1 = s.id
          · simp only [hk, if_pos rfl] at hqe
            rw [← hqe]; exact ⟨le_refl _, le_refl _⟩
          · simp only [if_neg hk] at hqe
            rw [← hqe]; exact hweak q hq
        · intro p hp
          rcases List.mem_append.mp hp with hp1 | hp1
          · exact hweak p hp1
          · rcases List.mem_singleton.mp hp1 with rfl
            exact ⟨le_refl _, le_refl _⟩
  | updateHealth id st =>
      simp only [applyOp, updateHealth]
      intro p hp
      rcases List.mem_map.mp hp with ⟨q, hq, hqe⟩
      by_cases hk : q.1 = id
      · simp only [if_pos hk] at hqe
        rw [← hqe]
        exact ⟨le_trans (hweak q hq).1 (hweak q hq).2, le_refl _⟩
      · simp only [if_neg hk] at hqe
        rw [← hqe]; exact hweak q hq
  | deregister id =>
      intro p hp
      exact hweak p (List.mem_of_mem_filter hp)
  | sweep timeout =>
      intro p hp
      rcases List.mem_filterMap.mp hp with ⟨q, hq, hqe⟩
      rcases sweepEntry_some hqe with ⟨-, h2, h3⟩
      rw [h2, h3]; exact hweak q hq

/-- The invariant survives any timestamped operation sequence whose
instants are nondecreasing. -/
lemma regInv_applyOps : ∀ (ops : List (Nat × RegistryOp)) (reg : Registry) (t : Nat),
    RegInv reg t → List.Chain (· ≤ ·) t (ops.map Prod.fst) →
    ∃ t', RegInv (applyOps reg ops) t'
  | [], reg, t, hinv, _ => ⟨t, hinv⟩
  | (t1, op) :: rest, reg, t, hinv, hchain => by
      rw [List.map_cons, List.chain_cons] at hchain
      exact regInv_applyOps rest _ t1 (regInv_applyOp op hinv hchain.1) hchain.2

/-- C9: starting from the empty registry, after any sequence of registry
operations (Register, UpdateHealth, Deregister, health sweep) executed at
nondecreasing instants, every record still present satisfies
`lastSeen ≥ registeredAt`. -/
theorem lastSeen_ge_registerTime (ops : List (Nat × RegistryOp))
    (hchain : List.Chain (· ≤ ·) 0 (ops.map Prod.fst)) :
    ∀ p ∈ applyOps [] ops, p.2.registerTime ≤ p.2.lastSeen := by
  rcases regInv_applyOps ops [] 0 (fun p hp => by cases hp) hchain with ⟨t', hinv⟩
  exact fun p hp => (hinv p hp).1

/-- Witness for the sweep theorem: an instance last seen 100 time units ago
with a 30-unit timeout is removed by the sweep. -/
theorem sweep_marks_and_deletes_witness :
    ("a", sampleService) ∉ checkExpiredServices [("a", sampleService)] 100 30 :=
  (sweep_marks_and_deletes [("a", sampleService)] 100 30 "a" sampleService
    (by decide) (by decide)).2.2 (by decide) sampleService

/-- Witness for the `lastSeen ≥ registeredAt` theorem on a concrete
two-operation history. -/
theorem lastSeen_ge_registerTime_witness :
    (("a", { sampleService with registerTime := 1, lastSeen := 2, health := HealthStatus.unhealthy }) : String × ServiceInfo).2.registerTime ≤
    (("a", { sampleService with registerTime := 1, lastSeen := 2, health := HealthStatus.unhealthy }) : String × ServiceInfo).2.lastSeen :=
  lastSeen_ge_registerTime
    [(1, .register sampleService), (2, .updateHealth "a" .unhealthy)]
    (List.Chain.cons (by norm_num) (List.Chain.cons (by norm_num) List.Chain.nil))
    _ (by decide)

/-! ## Load balancer
Embeds `src/v2-optimized/internal/loadbalancer/balancer.go`.  Request
counters are `Nat` (their only mutations are increments), `AvgResponseTime`
is a `Nat` of nanoseconds, `ActiveConns` stays a signed `Int` as in the
`int64` source field, and float64 scores become `ℚ`. -/

/-- Record `ServiceStats` from balancer.go. -/
structure ServiceStats where
  totalRequests : Nat
  successRequests : Nat
  failedRequests : Nat
  avgResponseTimeNs : Nat
  activeConns : Int
  lastUsed : Nat
deriving DecidableEq, Repr

/-- The zero-valued stats record `getOrCreateStats` creates for an unknown
ID (`LastUsed` is stamped with the current instant). -/
def newServiceStats (now : Nat) : ServiceStats :=
  { totalRequests := 0, successRequests := 0, failedRequests := 0,
    avgResponseTimeNs := 0, activeConns := 0, lastUsed := now }

/-- Function `getOrCreateStats` (balancer.go), read side: the stored record, or the
fresh zero record for an unknown ID. -/
def getOrCreateStats (stats : List (String × ServiceStats)) (now : Nat)
    (serviceID : String) : ServiceStats :=
  (stats.lookup serviceID).getD (newServiceStats now)

/-- Term `successRate` inside `selectWeighted`:
`float64(stats.SuccessRequests) / float64(stats.TotalRequests+1)`. -/
def successRate (st : ServiceStats) : ℚ :=
  (st.successRequests : ℚ) / ((st.totalRequests : ℚ) + 1)

/-- Term `responseTimeScore` inside `selectWeighted`:
`1.0 / (float64(stats.AvgResponseTime.Milliseconds()) + 1)`;
`Milliseconds()` truncates nanoseconds to milliseconds. -/
def responseTimeScore (st : ServiceStats) : ℚ :=
  1 / (((st.avgResponseTimeNs / 1000000 : Nat) : ℚ) + 1)

/-- The weight score of `selectWeighted`:
`successRate*0.7 + responseTimeScore*0.3`. -/
def score (st : ServiceStats) : ℚ :=
  successRate st * (7 / 10) + responseTimeScore st * (3 / 10)

/-- Score of a candidate instance, looked up by its service ID. -/
def scoreOf (stats : List (String × ServiceStats)) (now : Nat) (svc : ServiceInfo) : ℚ :=
  score (getOrCreateStats stats now svc.id)

/-- The `for _, service := range services` loop of `selectWeighted`,
threading the `bestService`/`bestScore` accumulator; the update fires on
`score > bestScore` (strictly), so earlier candidates win ties. -/
def selectWeightedAux (stats : List (String × ServiceStats)) (now : Nat) :
    List ServiceInfo → Option ServiceInfo × ℚ → Option ServiceInfo × ℚ
  | [], acc => acc
  | svc :: rest, acc =>
      if acc.2 < scoreOf stats now svc then
        selectWeightedAux stats now rest (some svc, scoreOf stats now svc)
      else selectWeightedAux stats now rest acc

/-- Function `selectWeighted` (balancer.go): run the loop from `bestScore = -1`,
falling back to `services[0]` if no candidate was ever selected. -/
def selectWeighted (stats : List (String × ServiceStats)) (now : Nat)
    (services : List ServiceInfo) : Option ServiceInfo :=
  match (selectWeightedAux stats now services (none, -1)).1 with
  | some s => some s
  | none => services.head?

/-- Function `selectRoundRobin` (balancer.go): `atomic.AddUint64(&bm.rrCounter, 1)`
wraps at `2^64`; the returned candidate is `services[counter % len]`.
Returns the new counter together with the selection. -/
def selectRoundRobin (rrCounter : Nat) (services : List ServiceInfo) :
    Nat × Option ServiceInfo :=
  let c := (rrCounter + 1) % 2 ^ 64
  (c, services.get? (c % services.length))

/-- Trace of `n` consecutive `selectRoundRobin` calls over a fixed candidate set,
starting from counter value `rrCounter`. -/
def rrSelections (rrCounter : Nat) (services : List ServiceInfo) : Nat → List (Option ServiceInfo)
  | 0 => []
  | n + 1 =>
      let r := selectRoundRobin rrCounter services
      r.2 :: rrSelections r.1 services n

/-- The indices `counter % K` produced by `n` consecutive round-robin
calls from counter value `c` over a candidate set of size `K`. -/
def rrIndices (c K : Nat) : Nat → List Nat
  | 0 => []
  | n + 1 => (c + 1) % 2 ^ 64 % K :: rrIndices ((c + 1) % 2 ^ 64) K n

/-- Function `UpdateStats` (balancer.go): bump the total counter and one of the
success/fail counters, then fold the sample into the moving average —
`avg` is set directly on the first sample (`TotalRequests == 1` after the
increment), and to `(avg*9 + responseTime) / 10` (truncated `int64`
division, here on nonnegative operands) otherwise; `LastUsed` is stamped. -/
def updateStats (st : ServiceStats) (responseTimeNs : Nat) (success : Bool) (now : Nat) :
    ServiceStats :=
  let st1 := { st with totalRequests := st.totalRequests + 1 }
  let st2 :=
    if success then { st1 with successRequests := st1.successRequests + 1 }
    else { st1 with failedRequests := st1.failedRequests + 1 }
  let st3 :=
    if st2.totalRequests = 1 then { st2 with avgResponseTimeNs := responseTimeNs }
    else { st2 with avgResponseTimeNs := (st2.avgResponseTimeNs * 9 + responseTimeNs) / 10 }
  { st3 with lastUsed := now }

/-- Function `IncrementActiveConns` (balancer.go). -/
def incrementActiveConns (st : ServiceStats) : ServiceStats :=
  { st with activeConns := st.activeConns + 1 }

/-- Function `DecrementActiveConns` (balancer.go): guarded by `ActiveConns > 0`. -/
def decrementActiveConns (st : ServiceStats) : ServiceStats :=
  if 0 < st.activeConns then { st with activeConns := st.activeConns - 1 } else st

/-- One connection-count call: `true` = `IncrementActiveConns`,
`false` = `DecrementActiveConns`. -/
def connStep (s : ServiceStats) (op : Bool) : ServiceStats :=
  if op then incrementActiveConns s else decrementActiveConns s

/-- A sequence of connection-count calls applied to one instance's stats. -/
def applyConnOps (st : ServiceStats) (ops : List Bool) : ServiceStats :=
  ops.foldl connStep st

/-- Each single increment/decrement call preserves nonnegativity of the
active-connection count. -/
lemma connStep_nonneg (s : ServiceStats) (op : Bool) (h : 0 ≤ s.activeConns) :
    0 ≤ (connStep s op).activeConns := by
  cases op
  · show 0 ≤ (decrementActiveConns s).activeConns
    unfold decrementActiveConns
    split
    · simp only []
      omega
    · exact h
  · show 0 ≤ (incrementActiveConns s).activeConns
    unfold incrementActiveConns
    simp only []
    omega

/-- Scores are nonnegative: both weight terms are quotients of nonnegative
numerators by positive denominators. -/
lemma score_nonneg (st : ServiceStats) : 0 ≤ score st := by
  unfold score successRate responseTimeScore
  positivity

/-- Loop invariant of the `selectWeighted` fold: either no candidate ever
beat the incoming best score, or the fold returns the earliest candidate
attaining the maximum score among the scanned ones. -/
lemma selectWeightedAux_spec (stats : List (String × ServiceStats)) (now : Nat) :
    ∀ (l : List ServiceInfo) (b : Option ServiceInfo) (bs : ℚ),
    (selectWeightedAux stats now l (b, bs) = (b, bs) ∧ ∀ s ∈ l, scoreOf stats now s ≤ bs) ∨
    (∃ pre x post, l = pre ++ x :: post ∧
      selectWeightedAux stats now l (b, bs) = (some x, scoreOf stats now x) ∧
      bs < scoreOf stats now x ∧
      (∀ s ∈ pre, scoreOf stats now s < scoreOf stats now x) ∧
      (∀ s ∈ post, scoreOf stats now s ≤ scoreOf stats now x)) := by
  intro l
  induction l with
  | nil => intro b bs; exact Or.inl ⟨rfl, by simp⟩
  | cons a rest ih =>
      intro b bs
      by_cases hlt : bs < scoreOf stats now a
      · have hstep : selectWeightedAux stats now (a :: rest) (b, bs)
            = selectWeightedAux stats now rest (some a, scoreOf stats now a) := by
          simp [selectWeightedAux, hlt]
        rcases ih (some a) (scoreOf stats now a) with
          ⟨heq, hall⟩ | ⟨pre, x, post, heql, heq, hlt2, hpre, hpost⟩
        · exact Or.inr ⟨[], a, rest, rfl, by rw [hstep, heq], hlt, by simp, hall⟩
        · refine Or.inr ⟨a :: pre, x, post, by rw [heql]; rfl, by rw [hstep, heq],
            lt_trans hlt hlt2, ?_, hpost⟩
          intro s hs
          rcases List.mem_cons.mp hs with rfl | hs2
          · exact hlt2
          · exact hpre s hs2
      · have hstep : selectWeightedAux stats now (a :: rest) (b, bs)
            = selectWeightedAux stats now rest (b, bs) := by
          simp [selectWeightedAux, hlt]
        rcases ih b bs with ⟨heq, hall⟩ | ⟨pre, x, post, heql, heq, hlt2, hpre, hpost⟩
        · refine Or.inl ⟨by rw [hstep, heq], ?_⟩
          intro s hs
          rcases List.mem_cons.mp hs with rfl | hs2
          · exact not_lt.mp hlt
          · exact hall s hs2
        · refine Or.inr ⟨a :: pre, x, post, by rw [heql]; rfl, by rw [hstep, heq], hlt2, ?_, hpost⟩
          intro s hs
          rcases List.mem_cons.mp hs with rfl | hs2
          · exact lt_of_le_of_lt (not_lt.mp hlt) hlt2
          · exact hpre s hs2

/-- C6: the weighted selector scores a candidate as
`successRate·0.7 + 0.3/(avgLatencyMillis+1)` with
`successRate = successCount/(totalCount+1)`, returns the first candidate
attaining the maximal score (strictly earlier candidates that tie are
preferred), and at identical average latency a strictly higher success
rate yields a strictly higher score. -/
theorem selectWeighted_argmax_and_monotone :
    (∀ st : ServiceStats, score st
        = ((st.successRequests : ℚ) / ((st.totalRequests : ℚ) + 1)) * (7 / 10)
          + (1 / (((st.avgResponseTimeNs / 1000000 : Nat) : ℚ) + 1)) * (3 / 10)) ∧
    (∀ (stats : List (String × ServiceStats)) (now : Nat) (services : List ServiceInfo),
      services ≠ [] →
      ∃ pre x post, services = pre ++ x :: post ∧
        selectWeighted stats now services = some x ∧
        (∀ s ∈ pre, scoreOf stats now s < scoreOf stats now x) ∧
        (∀ s ∈ services, scoreOf stats now s ≤ scoreOf stats now x)) ∧
    (∀ st1 st2 : ServiceStats, st1.avgResponseTimeNs = st2.avgResponseTimeNs →
      successRate st2 < successRate st1 → score st2 < score st1) := by
  refine ⟨fun st => rfl, ?_, ?_⟩
  · intro stats now services hne
    rcases selectWeightedAux_spec stats now services none (-1) with
      ⟨heq, hall⟩ | ⟨pre, x, post, heql, heq, hbs, hpre, hpost⟩
    · rcases services with _ | ⟨a, rest⟩
      · exact absurd rfl hne
      · have h1 := hall a (List.mem_cons_self a rest)
        have h2 : (0 : ℚ) ≤ scoreOf stats now a := score_nonneg _
        linarith
    · refine ⟨pre, x, post, heql, ?_, hpre, ?_⟩
      · unfold selectWeighted
        rw [heq]
      · intro s hs
        rw [heql] at hs
        rcases List.mem_append.mp hs with hs1 | hs1
        · exact le_of_lt (hpre s hs1)
        · rcases List.mem_cons.mp hs1 with rfl | hs2
          · exact le_refl _
          · exact hpost s hs2
  · intro st1 st2 havg hrate
    unfold score
    have hrts : responseTimeScore st1 = responseTimeScore st2 := by
      unfold responseTimeScore; rw [havg]
    rw [hrts]
    have := mul_lt_mul_of_pos_right hrate (by norm_num : (0 : ℚ) < 7 / 10)
    linarith

/-- A stats record with one successful request and zero average latency. -/
def sampleStatsGood : ServiceStats :=
  { totalRequests := 1, successRequests := 1, failedRequests := 0,
    avgResponseTimeNs := 0, activeConns := 0, lastUsed := 0 }

/-- Witness for the weighted-selector theorem: on a singleton candidate
set the selector returns that candidate, and a fresh record scores below a
record with a strictly better success rate at equal latency. -/
theorem selectWeighted_argmax_and_monotone_witness :
    selectWeighted [] 0 [sampleService] = some sampleService ∧
    score (newServiceStats 0) < score sampleStatsGood := by
  constructor
  · rcases selectWeighted_argmax_and_monotone.2.1 [] 0 [sampleService] (by simp) with
      ⟨pre, x, post, heql, hsel, -, -⟩
    have hx : x = sampleService := by
      cases pre with
      | nil =>
          simp only [List.nil_append, List.cons.injEq] at heql
          exact heql.1.symm
      | cons y ys =>
          simp only [List.cons_append, List.cons.injEq] at heql
          exact absurd heql.2.symm (by simp)
    rw [hx] at hsel
    exact hsel
  · exact selectWeighted_argmax_and_monotone.2.2 sampleStatsGood (newServiceStats 0) rfl
      (by norm_num [successRate, newServiceStats, sampleStatsGood])

/-- C8: `UpdateStats` increments the total counter, increments exactly the
success counter on success and exactly the fail counter on failure, sets
the average latency directly on the first sample, and otherwise updates it
by `avg := (avg*9 + elapsed) / 10`. -/
theorem updateStats_counters_and_avg (st : ServiceStats) (responseTimeNs : Nat)
    (success : Bool) (now : Nat) :
    (updateStats st responseTimeNs success now).totalRequests = st.totalRequests + 1 ∧
    (updateStats st responseTimeNs success now).successRequests
      = st.successRequests + (if success then 1 else 0) ∧
    (updateStats st responseTimeNs success now).failedRequests
      = st.failedRequests + (if success then 0 else 1) ∧
    (updateStats st responseTimeNs success now).avgResponseTimeNs
      = (if st.totalRequests = 0 then responseTimeNs
         else (st.avgResponseTimeNs * 9 + responseTimeNs) / 10) := by
  rcases Nat.eq_zero_or_pos st.totalRequests with h0 | h0
  · cases success <;> simp [updateStats, h0]
  · have h1 : st.totalRequests + 1 ≠ 1 := by omega
    have h2 : st.totalRequests ≠ 0 := by omega
    cases success <;> simp [updateStats, h1, h2]

/-- C10: decrementing at zero is a no-op, and starting from the fresh zero
record every sequence of increment/decrement calls keeps the
active-connection count nonnegative. -/
theorem activeConns_never_negative :
    (∀ st : ServiceStats, st.activeConns = 0 → decrementActiveConns st = st) ∧
    (∀ (now : Nat) (ops : List Bool), 0 ≤ (applyConnOps (newServiceStats now) ops).activeConns) := by
  constructor
  · intro st h
    simp [decrementActiveConns, h]
  · intro now ops
    have key : ∀ (ops : List Bool) (st : ServiceStats), 0 ≤ st.activeConns →
        0 ≤ (applyConnOps st ops).activeConns := by
      intro ops
      induction ops with
      | nil => exact fun st h => h
      | cons op rest ih =>
          intro st h
          exact ih (connStep st op) (connStep_nonneg st op h)
    exact key ops _ (by simp [newServiceStats])

/-- Distinct sample instances for round-robin statements. -/
def sampleService2 : ServiceInfo := { sampleService with id := "b", address := "127.0.0.2" }

/-- A third distinct sample instance. -/
def sampleService3 : ServiceInfo := { sampleService with id := "c", address := "127.0.0.3" }

/-- Round-robin selections are lookups of the successive counter residues. -/
lemma rrSelections_eq_map (services : List ServiceInfo) (n : Nat) :
    ∀ c, rrSelections c services n
      = (rrIndices c services.length n).map (fun j => services.get? j) := by
  induction n with
  | zero => intro c; rfl
  | succ m ih => intro c; simp [rrSelections, rrIndices, selectRoundRobin, ih]

/-- Shifting the counter start commutes with the `2^64` wrap. -/
lemma mod_pow_shift (c j : Nat) :
    ((c + 1) % 2 ^ 64 + 1 + j) % 2 ^ 64 = (c + 1 + (j + 1)) % 2 ^ 64 := by
  have h1 : (c + 1) % 2 ^ 64 + 1 + j = (c + 1) % 2 ^ 64 + (1 + j) := by omega
  rw [h1, Nat.mod_add_mod]
  congr 1
  omega

/-- Closed form of the round-robin index trace: the `j`-th of `n`
consecutive calls from counter `c` uses index `((c+1+j) mod 2^64) mod K`. -/
lemma rrIndices_eq_range (K : Nat) : ∀ (n c : Nat),
    rrIndices c K n = (List.range n).map (fun j => (c + 1 + j) % 2 ^ 64 % K) := by
  intro n
  induction n with
  | zero => intro c; rfl
  | succ m ih =>
      intro c
      rw [List.range_succ_eq_map]
      simp only [List.map_cons, List.map_map]
      rw [show rrIndices c K (m + 1)
            = (c + 1) % 2 ^ 64 % K :: rrIndices ((c + 1) % 2 ^ 64) K m from rfl]
      rw [ih ((c + 1) % 2 ^ 64)]
      congr 1
      apply List.map_congr_left
      intro j _
      simp only [Function.comp_apply]
      rw [mod_pow_shift]

/-- Every round-robin index is a residue modulo the candidate count. -/
lemma rrIndices_lt (c K n : Nat) (hK : 0 < K) : ∀ j ∈ rrIndices c K n, j < K := by
  rw [rrIndices_eq_range]
  intro j hj
  rcases List.mem_map.mp hj with ⟨m, -, rfl⟩
  exact Nat.mod_lt _ hK

/-- Counting a fixed (nodup) candidate among looked-up selections equals
counting its index among the index trace. -/
lemma count_map_get (services : List ServiceInfo) (hnd : services.Nodup)
    (i : Fin services.length) :
    ∀ (idxs : List Nat), (∀ j ∈ idxs, j < services.length) →
    ((idxs.map (fun j => services.get? j)).count (some (services.get i))) = idxs.count i.val := by
  intro idxs
  induction idxs with
  | nil => intro _; rfl
  | cons j rest ih =>
      intro hall
      have hj : j < services.length := hall j (List.mem_cons_self _ _)
      have hrest := ih (fun a ha => hall a (List.mem_cons_of_mem _ ha))
      have hcond : (services.get? j == some (services.get i)) = (j == i.val) := by
        rcases eq_or_ne j i.val with hji | hji
        · have hsome : services.get? j = some (services.get i) := by
            rw [List.get?_eq_get hj]
            exact congrArg some (congrArg services.get (Fin.ext hji))
          rw [hsome, hji, beq_self_eq_true, beq_self_eq_true]
        · have hsome : services.get? j ≠ some (services.get i) := by
            rw [List.get?_eq_get hj]
            intro hcon
            have h2 : (⟨j, hj⟩ : Fin services.length) = i :=
              (List.Nodup.get_inj_iff hnd).mp (Option.some.inj hcon)
            exact hji (congrArg Fin.val h2)
          rw [beq_eq_false_iff_ne.mpr hsome, beq_eq_false_iff_ne.mpr hji]
      simp only [List.map_cons, List.count_cons, hrest, hcond]

/-- Residue shift: for `i < K`, call number `j` (counter `b + j`) hits
residue `i` exactly when `j` lies on the shifted residue
`(i + K - b % K) % K`. -/
lemma mod_shift (K b N i : Nat) (hK : 0 < K) (hi : i < K) :
    (b + N) % K = i ↔ N % K = (i + K - b % K) % K := by
  have hb : b % K < K := Nat.mod_lt b hK
  have hdm := Nat.div_add_mod b K
  constructor
  · intro h
    calc N % K = (N + K * (b / K + 1)) % K := (Nat.add_mul_mod_self_left N K (b / K + 1)).symm
      _ = (b + N + (K - b % K)) % K := by rw [Nat.mul_succ]; congr 1; omega
      _ = ((b + N) % K + (K - b % K)) % K := (Nat.mod_add_mod (b + N) K (K - b % K)).symm
      _ = (i + K - b % K) % K := by rw [h]; congr 1; omega
  · intro h
    calc (b + N) % K = (b % K + N % K) % K := Nat.add_mod b N K
      _ = (b % K + (i + K - b % K) % K) % K := by rw [h]
      _ = (b % K + (i + K - b % K)) % K := Nat.add_mod_mod _ _ _
      _ = (i + K) % K := by congr 1; omega
      _ = i % K := Nat.add_mod_right i K
      _ = i := Nat.mod_eq_of_lt hi

/-- Exact count of a residue class alongside `N` consecutive counters:
`N/K` hits, plus one more when the shifted residue falls inside the
leftover `N mod K` prefix. -/
lemma countP_range_mod (K : Nat) (hK : 0 < K) (b i : Nat) (hi : i < K) :
    ∀ N : Nat, (List.range N).countP (fun j => decide ((b + j) % K = i))
      = N / K + if (i + K - b % K) % K < N % K then 1 else 0 := by
  intro N
  induction N with
  | zero => simp
  | succ N ih =>
      rw [List.range_succ, List.countP_append, ih]
      have hr : (i + K - b % K) % K < K := Nat.mod_lt _ hK
      have hNK : N % K < K := Nat.mod_lt _ hK
      have hone : (List.countP (fun j => decide ((b + j) % K = i)) [N])
          = if N % K = (i + K - b % K) % K then 1 else 0 := by
        simp only [List.countP_cons, List.countP_nil, decide_eq_true_eq, Nat.zero_add]
        exact if_congr (mod_shift K b N i hK hi) rfl rfl
      rw [hone]
      by_cases hcase : N % K + 1 = K
      · have hKdvd : K ∣ N + 1 := ⟨N / K + 1, by
          rw [Nat.mul_succ]
          have := Nat.div_add_mod N K
          omega⟩
        have hdiv : (N + 1) / K = N / K + 1 := by rw [Nat.succ_div, if_pos hKdvd]
        have hmod : (N + 1) % K = 0 := Nat.dvd_iff_mod_eq_zero.mp hKdvd
        rw [hdiv, hmod]
        split_ifs <;> omega
      · have hK2 : 2 ≤ K := by omega
        have hmod : (N + 1) % K = N % K + 1 := by
          rw [Nat.add_mod, Nat.mod_eq_of_lt (show 1 < K from hK2),
            Nat.mod_eq_of_lt (show N % K + 1 < K by omega)]
        have hndvd : ¬ K ∣ N + 1 := by
          rw [Nat.dvd_iff_mod_eq_zero, hmod]
          omega
        have hdiv : (N + 1) / K = N / K := by rw [Nat.succ_div, if_neg hndvd, Nat.add_zero]
        rw [hdiv, hmod]
        split_ifs <;> omega

/-- C7 (amended): as long as the shared `uint64` counter does not wrap
inside the window (`c0 + N < 2^64`), `N` consecutive round-robin `Select`
calls over a stable duplicate-free candidate set of size `K` return each
candidate either `N/K` or `N/K + 1` times — within ±1 of `N/K`. -/
theorem selectRoundRobin_fair_without_wrap (c0 N : Nat) (services : List ServiceInfo)
    (hnd : services.Nodup) (hwrap : c0 + N < 2 ^ 64) (i : Fin services.length) :
    (rrSelections c0 services N).count (some (services.get i)) = N / services.length ∨
    (rrSelections c0 services N).count (some (services.get i)) = N / services.length + 1 := by
  have hK : 0 < services.length := i.pos
  rw [rrSelections_eq_map services N c0,
    count_map_get services hnd i _ (rrIndices_lt c0 services.length N hK)]
  have hcnt : (rrIndices c0 services.length N).count i.val
      = (List.range N).countP (fun j => decide ((c0 + 1 + j) % services.length = i.val)) := by
    rw [rrIndices_eq_range]
    show ((List.range N).map fun j => (c0 + 1 + j) % 2 ^ 64 % services.length).countP
        (· == i.val) = _
    rw [List.countP_map]
    refine List.countP_congr ?_
    intro j hj
    have hjN : j < N := List.mem_range.mp hj
    have hlt : c0 + 1 + j < 2 ^ 64 := by omega
    have hmod64 : (c0 + 1 + j) % 2 ^ 64 = c0 + 1 + j := Nat.mod_eq_of_lt hlt
    simp only [Function.comp_apply]
    rw [hmod64]
    simp only [beq_iff_eq, decide_eq_true_eq]
  rw [hcnt, countP_range_mod services.length hK (c0 + 1) i.val i.isLt N]
  by_cases hcond :
      (i.val + services.length - (c0 + 1) % services.length) % services.length < N % services.length
  · exact Or.inr (by rw [if_pos hcond])
  · exact Or.inl (by rw [if_neg hcond, Nat.add_zero])

/-- Witness for the no-wrap fairness theorem: five calls over two
candidates return the first candidate twice (`5 / 2 = 2`). -/
theorem selectRoundRobin_fair_without_wrap_witness :
    (rrSelections 0 [sampleService, sampleService2] 5).count
        (some (([sampleService, sampleService2] : List ServiceInfo).get ⟨0, by decide⟩))
      = 5 / 2 ∨
    (rrSelections 0 [sampleService, sampleService2] 5).count
        (some (([sampleService, sampleService2] : List ServiceInfo).get ⟨0, by decide⟩))
      = 5 / 2 + 1 :=
  selectRoundRobin_fair_without_wrap 0 5 [sampleService, sampleService2]
    (by decide) (by norm_num) ⟨0, by decide⟩

/-- The claim as frozen fails at the counter wrap: eight consecutive calls
over three distinct candidates, starting five steps before the `uint64`
wrap, return the first candidate 4 times, while `8 / 3` is 2 — off by 2
in integer terms and by more than 1 (`4 − 8/3 > 1`) in exact terms. -/
theorem selectRoundRobin_wrap_counterexample :
    (rrSelections (2 ^ 64 - 5) [sampleService, sampleService2, sampleService3] 8).count
        (some sampleService) = 4 ∧
    8 / 3 + 1 < 4 ∧ (1 : ℚ) < (4 : ℚ) - 8 / 3 := by
  refine ⟨by decide, by norm_num, by norm_num⟩

/-- Witness for the active-connections theorem: a decrement on the fresh
record is a no-op, and a concrete call sequence ends nonnegative. -/
theorem activeConns_never_negative_witness :
    decrementActiveConns (newServiceStats 0) = newServiceStats 0 ∧
    0 ≤ (applyConnOps (newServiceStats 0) [false, true, false, false]).activeConns :=
  ⟨activeConns_never_negative.1 (newServiceStats 0) rfl,
   activeConns_never_negative.2 0 [false, true, false, false]⟩

/-! ## API server streamed PUT
Embeds `src/v2/apiserver/objectstream/objectstream.go` (`NewPutStream`,
`Close`) and `storeObject` from the apiserver objects handler. -/

/-- Outcome of the data-node PUT request issued by the `NewPutStream`
goroutine: either `client.Do` fails with a transport error (then the
response is nil), or the request completes with some HTTP status. -/
inductive RemoteResult where
  | transportError
  | response (status : Nat)
deriving DecidableEq, Repr

/-- What `PutStream.Close` observes from the goroutine's channel. -/
inductive CloseOutcome where
  | panics
  | errMsg (status : Nat)
  | ok
deriving DecidableEq, Repr

/-- The error value the `NewPutStream` goroutine produces for `Close`
(objectstream.go):

    resp, err := client.Do(request)
    if err != nil && resp.StatusCode != http.StatusOK {
        err = fmt.Errorf("dataserver return http code %d", resp.StatusCode)
    }
    c <- err

On a transport error (`err != nil`) `resp` is nil, so evaluating
`resp.StatusCode` in the guard is a nil-pointer dereference (`panics`).
When the request completes (`err == nil`) the conjunction is false
whatever the status is, so the nil error (`ok`) is sent even when the data
node answered with a non-200 status. -/
def putStreamCloseErr : RemoteResult → CloseOutcome
  | .transportError => .panics
  | .response _ => .ok

/-- Function `storeObject` (apiserver objects handler): 503 when `putStream` finds
no data server, 500 when `stream.Close()` returns an error, 200 otherwise;
`none` models the goroutine panic, after which no status is produced. -/
def storeObject (dataServer : Option String) (remote : RemoteResult) : Option Nat :=
  match dataServer with
  | none => some 503
  | some _ =>
      match putStreamCloseErr remote with
      | .panics => none
      | .errMsg _ => some 500
      | .ok => some 200

/-- C1 fails on the code: when the data node answers 500 (or 404) with no
transport error, the inverted guard `err != nil && resp.StatusCode != 200`
leaves the error nil, `Close` returns nil, and `storeObject` reports
200 OK instead of a 5xx status. -/
theorem storeObject_nonOk_returns_200 :
    putStreamCloseErr (.response 500) = .ok ∧
    storeObject (some "s1") (.response 500) = some 200 ∧
    storeObject (some "s1") (.response 404) = some 200 :=
  ⟨rfl, rfl, rfl⟩

/-! ## API server locate
Embeds `Locate` and `Handler` of the apiserver locate package.  The
concurrent wait is modelled by the FIFO list of replies published to the
temporary reply queue, each tagged with its arrival time in milliseconds
relative to the publish instant; the background timer closes the queue at
1000 ms. -/

/-- One `Locate` call: block on a single channel receive.  If a first
reply arrives inside the window it is consumed — `strconv.Unquote` undoes
the sender's `json.Marshal`, so the payload string is returned verbatim —
and any later replies are never received.  Otherwise the timer closes the
queue, the receive yields the zero-value delivery, unquoting its empty
body fails, and the empty string is returned with nothing consumed.
Returns (result, number of replies consumed). -/
def locateCall (replies : List (Nat × String)) : String × Nat :=
  match replies with
  | [] => ("", 0)
  | (t, name) :: _ => if t < 1000 then (name, 1) else ("", 0)

/-- The locate HTTP handler: 405 for a non-GET method, 404 when `Locate`
came back empty, otherwise the JSON body is written (status 200). -/
def locateHandlerStatus (method : String) (replies : List (Nat × String)) : Nat :=
  if method ≠ "GET" then 405
  else if (locateCall replies).1.length = 0 then 404
  else 200

/-- C2: a locate call consumes at most one reply (the first to arrive,
later ones being ignored), and when no reply arrives within the 1-second
window `Locate` returns the empty string and the handler answers 404. -/
theorem locate_consumes_at_most_one_reply :
    (∀ replies, (locateCall replies).2 ≤ 1) ∧
    (∀ t name rest, t < 1000 → locateCall ((t, name) :: rest) = (name, 1)) ∧
    (∀ replies, (∀ p ∈ replies, 1000 ≤ p.1) →
      locateCall replies = ("", 0) ∧ locateHandlerStatus "GET" replies = 404) := by
  refine ⟨?_, ?_, ?_⟩
  · intro replies
    rcases replies with - | ⟨⟨t, name⟩, rest⟩
    · simp [locateCall]
    · simp only [locateCall]
      split <;> norm_num
  · intro t name rest h
    simp [locateCall, h]
  · intro replies h
    rcases replies with - | ⟨⟨t, name⟩, rest⟩
    · exact ⟨rfl, rfl⟩
    · have ht : ¬ t < 1000 := not_lt.mpr (h (t, name) (List.mem_cons_self _ _))
      constructor
      · simp [locateCall, ht]
      · simp [locateHandlerStatus, locateCall, ht]

/-- Witness for the locate theorem: an early reply is consumed verbatim,
and with no reply in the window the result is empty and the handler
answers 404. -/
theorem locate_consumes_at_most_one_reply_witness :
    locateCall [(5, "10.0.0.1:8080")] = ("10.0.0.1:8080", 1) ∧
    (locateCall [(1500, "10.0.0.1:8080")] = ("", 0) ∧
      locateHandlerStatus "GET" [(1500, "10.0.0.1:8080")] = 404) :=
  ⟨locate_consumes_at_most_one_reply.2.1 5 "10.0.0.1:8080" [] (by norm_num),
   locate_consumes_at_most_one_reply.2.2 [(1500, "10.0.0.1:8080")]
     (by intro p hp; rcases List.mem_singleton.mp hp with rfl; norm_num)⟩

/-! ## Data node object handlers
Embeds `put` and `get` of `src/v2/objects/server.go`.  The on-disk object
store under `STORAGE_ROOT/objects/` is modelled as a map from object name
to byte content (an association list); `os.MkdirAll` always succeeds in
the model, `os.Create` truncates any previous content, and `os.Open` on an
absent name fails, which the handler turns into 404. -/

/-- The object store: object name to stored bytes. -/
abbrev FileSystem := List (String × List Nat)

/-- Data node `put`: create parent directories, create/truncate the file,
copy the request body into it, and answer 200 (the handler writes no
explicit status on success). -/
def putObject (fs : FileSystem) (name : String) (body : List Nat) : FileSystem × Nat :=
  ((name, body) :: fs.filter (fun p => p.1 ≠ name), 200)

/-- Data node `get`: open the file and stream it back with 200, or answer
404 when it does not exist. -/
def getObject (fs : FileSystem) (name : String) : Nat × Option (List Nat) :=
  match fs.lookup name with
  | none => (404, none)
  | some content => (200, some content)

/-- C5: a PUT of a payload at a name (overwriting whatever was there)
followed by a GET of the same name returns exactly that payload with 200,
and a GET of a name that was never stored returns 404. -/
theorem put_then_get_roundtrip :
    (∀ (fs : FileSystem) (name : String) (body : List Nat),
      getObject (putObject fs name body).1 name = (200, some body)) ∧
    (∀ (fs : FileSystem) (name : String), fs.lookup name = none →
      getObject fs name = (404, none)) := by
  constructor
  · intro fs name body
    simp [putObject, getObject, List.lookup]
  · intro fs name h
    simp [getObject, h]

/-- Witness for the roundtrip theorem: a GET from the empty store answers
404. -/
theorem put_then_get_roundtrip_witness :
    getObject [] "report.pdf" = (404, none) :=
  put_then_get_roundtrip.2 [] "report.pdf" rfl

end DOSS
